import Mathlib

/-!
Verification development for the Assimp model parser (`AssParser.cpp`) of the
Spring engine fork under study.  The C++ source is shallowly embedded below:
floats are modelled as exact rationals `ℚ` (the claims under study are about
control flow, ordering and exact data movement, not rounding), the scene graph
and the Lua metadata overlay are explicit inductive data, and the model/piece
records are Lean structures threaded through the loading passes in the order
`Load` executes them: `CalculatePerMeshMinMax`, `FindTextures`, `LoadPiece`
(recursive), `BuildPieceHierarchy`, `CalculateModelProperties`.
-/

/-- Engine float3, with exact rational components. -/
structure Float3 where
  x : ℚ
  y : ℚ
  z : ℚ
deriving DecidableEq, Repr

namespace Float3

/-- Componentwise minimum, the engine's `std::min(float3, float3)` overload. -/
def compMin (a b : Float3) : Float3 := ⟨min a.x b.x, min a.y b.y, min a.z b.z⟩

/-- Componentwise maximum, the engine's `std::max(float3, float3)` overload. -/
def compMax (a b : Float3) : Float3 := ⟨max a.x b.x, max a.y b.y, max a.z b.z⟩

/-- Componentwise absolute value, the engine's `std::fabs(float3)` overload. -/
def absV (a : Float3) : Float3 := ⟨|a.x|, |a.y|, |a.z|⟩

/-- Componentwise addition. -/
def add (a b : Float3) : Float3 := ⟨a.x + b.x, a.y + b.y, a.z + b.z⟩

instance : Add Float3 := ⟨add⟩

/-- The engine constant `ZeroVector`. -/
def zeroV : Float3 := ⟨0, 0, 0⟩

/-- Squared Euclidean length of a `Float3`. -/
def lengthSq (a : Float3) : ℚ := a.x * a.x + a.y * a.y + a.z * a.z

/-- The norm `float3::Length`, the Euclidean norm (into `ℝ`, since square roots of
rationals are irrational in general). -/
noncomputable def len (a : Float3) : ℝ := Real.sqrt ((lengthSq a : ℚ) : ℝ)

end Float3

open Float3

/-- The constant `DEF_MIN_SIZE`, the large sentinel vector the per-mesh minimum starts
from. -/
def DEF_MIN_SIZE : Float3 := ⟨10000, 10000, 10000⟩

/-- The constant `DEF_MAX_SIZE`, the small sentinel vector the per-mesh maximum starts
from. -/
def DEF_MAX_SIZE : Float3 := ⟨-10000, -10000, -10000⟩

/-- A 3x3 linear map (the rotation/scale part of `CMatrix44f`); the
scale-rotation matrices of this parser always have a zero translation part, so
only the linear part is carried.  Rows are stored; `mulVec` applies the map. -/
structure Mat3 where
  r0 : Float3
  r1 : Float3
  r2 : Float3
deriving DecidableEq, Repr

namespace Mat3

/-- Dot product helper. -/
def dot (a b : Float3) : ℚ := a.x * b.x + a.y * b.y + a.z * b.z

/-- The map application `CMatrix44f::Mul` restricted to the linear part: apply the matrix to a
vector. -/
def mulVec (m : Mat3) (v : Float3) : Float3 :=
  ⟨dot m.r0 v, dot m.r1 v, dot m.r2 v⟩

/-- The scaling `CMatrix44f::Scale`: multiply the X/Y/Z basis vectors (columns) by the
respective scale component, i.e. `M * diag(s)`. -/
def matScale (m : Mat3) (s : Float3) : Mat3 :=
  ⟨⟨m.r0.x * s.x, m.r0.y * s.y, m.r0.z * s.z⟩,
   ⟨m.r1.x * s.x, m.r1.y * s.y, m.r1.z * s.z⟩,
   ⟨m.r2.x * s.x, m.r2.y * s.y, m.r2.z * s.z⟩⟩

/-- The identity matrix. -/
def idMat : Mat3 := ⟨⟨1, 0, 0⟩, ⟨0, 1, 0⟩, ⟨0, 0, 1⟩⟩

end Mat3

/-! ## The metadata overlay (`LuaTable`)

A `LuaTable.GetFloat(key, default)` call returns the stored value when the key
is present and the default otherwise; this is an `Option.getD`.  Only the keys
this parser reads are modelled. -/

/-- The per-piece overlay sub-table (`metaTable.SubTable("pieces").SubTable(name)`). -/
structure PieceTable where
  scale : Option Float3 := none
  scalex : Option ℚ := none
  scaley : Option ℚ := none
  scalez : Option ℚ := none
  offset : Option Float3 := none
  offsetx : Option ℚ := none
  offsety : Option ℚ := none
  offsetz : Option ℚ := none
  parent : Option String := none
deriving Repr

/-- An absent per-piece sub-table: all lookups fall back to defaults. -/
def emptyPieceTable : PieceTable := {}

/-- The root-level overlay table, with the model-wide keys this parser reads. -/
structure MetaTable where
  pieceTables : String → PieceTable := fun _ => emptyPieceTable
  height : Option ℚ := none
  radius : Option ℚ := none
  midpos : Option Float3 := none
  minsKey : Option Float3 := none
  maxsKey : Option Float3 := none
  tex1 : Option String := none
  tex2 : Option String := none

/-- A missing/empty metadata overlay. -/
def emptyMeta : MetaTable := {}

/-! ## `CAssParser::CalculatePerMeshMinMax` -/

/-- An imported mesh: vertex positions and faces (each face a list of vertex
indices; the import pipeline normally leaves only 3-index faces, but 2-index
line faces can remain). -/
structure AMesh where
  vertices : List Float3
  faces : List (List ℕ)
deriving Repr

/-- The per-mesh min/max fold of `CalculatePerMeshMinMax`: starting from the
`DEF_MIN_SIZE`/`DEF_MAX_SIZE` sentinels, fold componentwise min/max over every
vertex, then reset a pair still equal to its sentinel to the zero vector. -/
def meshMinMax (verts : List Float3) : Float3 × Float3 :=
  let mins := verts.foldl compMin DEF_MIN_SIZE
  let maxs := verts.foldl compMax DEF_MAX_SIZE
  (if mins = DEF_MIN_SIZE then zeroV else mins,
   if maxs = DEF_MAX_SIZE then zeroV else maxs)

/-- The pass `CalculatePerMeshMinMax`: one `(mins, maxs)` pair per scene mesh. -/
def calculatePerMeshMinMax (meshes : List AMesh) : List (Float3 × Float3) :=
  meshes.map (fun mesh => meshMinMax mesh.vertices)

/-- The componentwise minimum over the vertex positions themselves (the
quantity the specification describes: no sentinel involved).  Stated for a
nonempty list, folding from the first vertex. -/
def specVertexMin (v : Float3) (vs : List Float3) : Float3 := vs.foldl compMin v

/-- The componentwise maximum over the vertex positions themselves (the
quantity the specification describes). -/
def specVertexMax (v : Float3) (vs : List Float3) : Float3 := vs.foldl compMax v

/-! ## `CAssParser::LoadPieceTransformations` (scale/offset resolution) -/

/-- Scale after the overlay overrides (`scale`, then `scalex/y/z`), before the
uniformity correction; the default is the import-decomposed scale. -/
def preScale (pt : PieceTable) (aiScale : Float3) : Float3 :=
  let s0 := pt.scale.getD aiScale
  let s1 : Float3 := ⟨pt.scalex.getD s0.x, s0.y, s0.z⟩
  let s2 : Float3 := ⟨s1.x, pt.scaley.getD s1.y, s1.z⟩
  ⟨s2.x, s2.y, pt.scalez.getD s2.z⟩

/-- The resolved scale: apply the overlay overrides, then force Y and Z equal
to X whenever the three components are not all equal
(`if (x != y || y != z) { y = x; z = x; }`). -/
def resolveScale (pt : PieceTable) (aiScale : Float3) : Float3 :=
  let s := preScale pt aiScale
  if s.x ≠ s.y ∨ s.y ≠ s.z then ⟨s.x, s.x, s.x⟩ else s

/-- The resolved translation/offset: overlay `offset` then `offsetx/y/z`
overrides, defaulting to the import-decomposed translation. -/
def resolveOffset (pt : PieceTable) (aiTrans : Float3) : Float3 :=
  let t0 := pt.offset.getD aiTrans
  let t1 : Float3 := ⟨pt.offsetx.getD t0.x, t0.y, t0.z⟩
  let t2 : Float3 := ⟨t1.x, pt.offsety.getD t1.y, t1.z⟩
  ⟨t2.x, t2.y, pt.offsetz.getD t2.z⟩

/-! ## `CAssParser::FindTextures` (material and overlay steps)

The filesystem fallback steps (`CFileHandler::FindFiles`, `FileExists`) go
through an external collaborator and are outside the embedded core; the
material scan and the overlay lookup below are lines 665-692 of the source.
The model's texture fields start empty (`S3DModel`'s constructor is not part
of this file; modelled from the spec: an unresolved slot is the empty string). -/

/-- The first material of the scene, as far as this parser reads it: the
diffuse, "unknown"-type and specular texture references (`aiMaterial::Get`
leaves the string empty when the slot is absent). -/
structure AMaterial where
  diffuse : String
  unknownTex : String
  specular : String
deriving Repr

/-- Lines 665-692: scan the first material (note the source condition assigns
the texture only when the fetched string is *empty*), then apply the overlay
`tex1`/`tex2` keys. -/
def findTexturesCore (mats : List AMaterial) (meta : MetaTable) : String × String :=
  let t1 := ""
  let t1 := match mats with
    | [] => t1
    | mat :: _ =>
      let a := if mat.diffuse = "" then mat.diffuse else t1
      let b := if mat.unknownTex = "" then mat.unknownTex else a
      if mat.specular = "" then mat.specular else b
  (meta.tex1.getD t1, meta.tex2.getD "")

/-! ## Scene graph and piece/model records -/

/-- An imported scene node.  Assimp's `Decompose` of the local transform is an
external collaborator, so each node carries that decomposition directly: the
scale and translation vectors and the rotation's matrix (the linear map; the
row-major/column-major repacking of `aiMatrixToMatrix` is storage-only and is
absorbed by working with the map itself). -/
inductive ANode where
  | mk (name : String) (scale : Float3) (rotMat : Mat3) (trans : Float3)
       (meshes : List ℕ) (children : List ANode)
deriving Repr

namespace ANode

def name : ANode → String | mk n _ _ _ _ _ => n

def scale : ANode → Float3 | mk _ s _ _ _ _ => s

def rotMat : ANode → Mat3 | mk _ _ r _ _ _ => r

def trans : ANode → Float3 | mk _ _ _ t _ _ => t

def meshes : ANode → List ℕ | mk _ _ _ _ m _ => m

def children : ANode → List ANode | mk _ _ _ _ _ c => c

end ANode

/-- A whole imported scene: the mesh and material arrays plus the root node. -/
structure AScene where
  meshes : List AMesh
  materials : List AMaterial
  root : ANode

/-- A model piece (`SAssPiece`).  The constructor of `S3DModelPiece` is not in
this file; modelled from the spec: local extents start at the same large/small
sentinel vectors the per-mesh fold uses, so that unioning per-mesh extents
starts from a neutral element.  `parent` is the resolved parent reference
(pieces are uniquely keyed by name in the model map, so the reference is
carried as the parent's key); it is `none` until `BuildPieceHierarchy` runs. -/
structure Piece where
  name : String
  parentName : String := ""
  offset : Float3 := zeroV
  scaleRotMatrix : Mat3 := Mat3.idMat
  mins : Float3 := DEF_MIN_SIZE
  maxs : Float3 := DEF_MAX_SIZE
  vertices : List Float3 := []
  vertexDrawIndices : List ℕ := []
  isEmpty : Bool := true
  parent : Option String := none
  children : List String := []
  goffset : Float3 := zeroV
deriving DecidableEq, Repr

/-- The model's name-keyed piece map (`ModelPieceMap`, a `std::map`): an
association list with the map's overwrite-on-insert semantics. -/
abbrev PMap := List (String × Piece)

/-- Map lookup (`model->pieces.find`, `model->FindPiece`). -/
def lookupP : PMap → String → Option Piece
  | [], _ => none
  | e :: ps, k => if e.1 = k then some e.2 else lookupP ps k

/-- Map insert with overwrite (`model->pieces[name] = piece`). -/
def insertP (ps : PMap) (k : String) (p : Piece) : PMap :=
  if (lookupP ps k).isSome then
    ps.map (fun e => if e.1 = k then (e.1, p) else e)
  else
    ps ++ [(k, p)]

/-- The model record (`SAssModel`).  Its constructor is not in this file;
modelled from the spec: the scalar fields start at zero, the running
model-wide extents start at the same large/small sentinel vectors used for the
per-mesh fold, the texture slots start empty. -/
structure Model where
  pieces : PMap := []
  numPieces : ℕ := 0
  height : ℚ := 0
  radius : ℝ := 0
  drawRadius : ℝ := 0
  relMidPos : Float3 := zeroV
  mins : Float3 := DEF_MIN_SIZE
  maxs : Float3 := DEF_MAX_SIZE
  rootPieceName : Option String := none
  tex1 : String := ""
  tex2 : String := ""

/-! ## Piece naming (`LoadPiece`, lines 370-392) -/

/-- The decimal digit characters. -/
def digitChr : ℕ → Char
  | 0 => '0'
  | 1 => '1'
  | 2 => '2'
  | 3 => '3'
  | 4 => '4'
  | 5 => '5'
  | 6 => '6'
  | 7 => '7'
  | 8 => '8'
  | _ => '9'

/-- Value of a decimal digit character (0 for anything else). -/
def digitVal : Char → ℕ
  | '1' => 1
  | '2' => 2
  | '3' => 3
  | '4' => 4
  | '5' => 5
  | '6' => 6
  | '7' => 7
  | '8' => 8
  | '9' => 9
  | _ => 0

/-- Decimal rendering with explicit fuel (structural recursion, so that the
renderer evaluates inside the kernel); `fuel = n` digits always suffice. -/
def natToStrAux : ℕ → ℕ → List Char
  | 0, n => [digitChr n]
  | fuel + 1, n =>
    if n < 10 then [digitChr n]
    else natToStrAux fuel (n / 10) ++ [digitChr (n % 10)]

/-- Decimal rendering of a natural number, most significant digit first. -/
def natToStrL (n : ℕ) : List Char := natToStrAux n n

/-- Read a digit string back as a number (ignoring leading zeros). -/
def decDigits (l : List Char) : ℕ :=
  l.foldl (fun acc c => acc * 10 + digitVal c) 0

/-- Two-digit zero-padded rendering of the disambiguation counter,
`IntToString(i, "%02i")`: a leading zero for one-digit values, plain decimal
beyond. -/
def pad2 (i : ℕ) : String :=
  if i < 10 then String.mk ('0' :: natToStrL i) else String.mk (natToStrL i)

/-- The disambiguation loop: try `base ++ pad2 0`, `base ++ pad2 1`, ... until
a name not present in the map is found.  The C++ loop is unbounded; here it
carries fuel, and `(number of map entries) + 1` candidates always suffice
(shown below). -/
def findFreeName (ps : PMap) (base : String) : ℕ → ℕ → String
  | 0, i => base ++ pad2 i
  | fuel + 1, i =>
    let n := base ++ pad2 i
    if (lookupP ps n).isNone then n else findFreeName ps base fuel (i + 1)

/-- Piece naming: the root node (no parent) is named `"root"` regardless of
its import name; an empty name becomes `"piece"`; a name already present in the
(current) piece map gets the two-digit counter appended. -/
def chooseName (ps : PMap) (hasParent : Bool) (importName : String) : String :=
  let n0 := if hasParent then importName else "root"
  let n1 := if n0 = "" then "piece" else n0
  if (lookupP ps n1).isNone then n1 else findFreeName ps n1 (ps.length + 1) 0

/-! ## Geometry extraction (`LoadPiece`, lines 458-546) -/

/-- Append one mesh's geometry to the piece's vertex/index lists: vertices are
appended while `mesh_vertex_mapping` records each mesh-local index's new
global index; faces with exactly 3 indices contribute their remapped indices,
any other face is skipped.  (An out-of-range face index is undefined behaviour
in the C++; the embedding returns the remapped value `0` there, and the claims
about this code exclude that case.) -/
def extractMesh (mesh : AMesh) (verts : List Float3) (inds : List ℕ) :
    List Float3 × List ℕ :=
  let vm := mesh.vertices.foldl
    (fun (acc : List Float3 × List ℕ) v => (acc.1 ++ [v], acc.2 ++ [acc.1.length]))
    (verts, [])
  let inds1 := mesh.faces.foldl
    (fun acc face =>
      if face.length = 3 then acc ++ face.map (fun i => vm.2.getD i 0) else acc)
    inds
  (vm.1, inds1)

/-- Geometry extraction over all meshes referenced by a node. -/
def extractGeometry (meshes : List AMesh) (refs : List ℕ) :
    List Float3 × List ℕ :=
  refs.foldl
    (fun acc mi =>
      match meshes.get? mi with
      | some mesh => extractMesh mesh acc.1 acc.2
      | none => acc)
    ([], [])

/-! ## `CAssParser::LoadPiece` (recursive piece construction) -/

/-- Union of the precomputed per-mesh extents over the meshes a node
references (lines 407-413), starting from the piece's constructor values. -/
def unionMeshExtents (mm : List (Float3 × Float3)) (refs : List ℕ) :
    Float3 × Float3 :=
  refs.foldl
    (fun acc mi =>
      match mm.get? mi with
      | some p => (compMin acc.1 p.1, compMax acc.2 p.2)
      | none => acc)
    (DEF_MIN_SIZE, DEF_MAX_SIZE)

/-- The declared parent name (lines 551-559): the overlay `parent` key
verbatim when present; else the parent node's import name when that parent is
not the scene root, `"root"` when it is, and empty for the scene root itself.
`pinfo` carries `(parent's import name, parent has a parent itself)` and is
`none` for the scene root. -/
def declaredParent (pt : PieceTable) (pinfo : Option (String × Bool)) : String :=
  match pt.parent with
  | some pn => pn
  | none =>
    match pinfo with
    | some (pname, pHasParent) => if pHasParent then pname else "root"
    | none => ""

mutual

/-- The recursive `CAssParser::LoadPiece`: increment the piece counter, choose the name,
resolve transforms and extents, intercept the `SpringHeight`/`SpringRadius`
sentinel nodes (which set a model-wide scalar unless the overlay key exists,
decrement the counter and produce no piece, their children never visited),
else extract geometry, resolve the declared parent name, recurse into the
children and only then insert the piece into the map. -/
def loadPiece (meshes : List AMesh) (mm : List (Float3 × Float3))
    (meta : MetaTable) (pinfo : Option (String × Bool)) :
    ANode → Model → Model
  | ANode.mk nodeName aiScale rotM aiTrans meshRefs childNodes, m =>
    let m1 : Model := { m with numPieces := m.numPieces + 1 }
    let pname := chooseName m1.pieces pinfo.isSome nodeName
    let pt := meta.pieceTables pname
    let spScale := resolveScale pt aiScale
    let offset := resolveOffset pt aiTrans
    let srm := Mat3.matScale rotM spScale
    let ext := unionMeshExtents mm meshRefs
    if nodeName = "SpringHeight" then
      let m2 := if meta.height.isNone then { m1 with height := offset.z } else m1
      { m2 with numPieces := m2.numPieces - 1 }
    else if nodeName = "SpringRadius" then
      let m2 :=
        if meta.midpos.isNone then { m1 with relMidPos := srm.mulVec offset } else m1
      let m3 :=
        if meta.radius.isNone then
          { m2 with radius :=
              if ext.2.x ≤ 1 / 100000 then ((aiScale.x : ℚ) : ℝ) else ((ext.2.x : ℚ) : ℝ) }
        else m2
      { m3 with numPieces := m3.numPieces - 1 }
    else
      let geo := extractGeometry meshes meshRefs
      let piece : Piece :=
        { name := pname
          parentName := declaredParent pt pinfo
          offset := offset
          scaleRotMatrix := srm
          mins := ext.1
          maxs := ext.2
          vertices := geo.1
          vertexDrawIndices := geo.2
          isEmpty := geo.1.isEmpty }
      let m2 := loadChildren meshes mm meta (some (nodeName, pinfo.isSome)) childNodes m1
      { m2 with pieces := insertP m2.pieces pname piece }

/-- Recursive processing of a node's children, in order. -/
def loadChildren (meshes : List AMesh) (mm : List (Float3 × Float3))
    (meta : MetaTable) (pinfo : Option (String × Bool)) :
    List ANode → Model → Model
  | [], m => m
  | c :: cs, m => loadChildren meshes mm meta pinfo cs (loadPiece meshes mm meta pinfo c m)

end

/-! ## `CAssParser::BuildPieceHierarchy` -/

/-- Update the entry with key `k` by `f` (pointer mutation of a mapped piece). -/
def updF (ps : PMap) (k : String) (f : Piece → Piece) : PMap :=
  ps.map (fun e => if e.1 = k then (e.1, f e.2) else e)

/-- Set a piece's resolved parent reference (`piece->parent = ...`). -/
def setParentF (v : Option String) (q : Piece) : Piece := { q with parent := v }

/-- Append a child reference (`piece->parent->children.push_back(piece)`). -/
def addChildF (c : String) (q : Piece) : Piece :=
  { q with children := q.children ++ [c] }

/-- One iteration of the hierarchy-linking loop, for the piece at key `k`:
a piece named `"root"` gets no parent and becomes the model's root piece; a
piece with a non-empty declared parent name is linked to it when the lookup
succeeds and is left unlinked (parent null) when it fails; a piece with an
empty declared parent name is attached under `"root"` when that piece exists
and left unlinked otherwise. -/
def buildStep (st : PMap × Option String) (k : String) : PMap × Option String :=
  match lookupP st.1 k with
  | none => st
  | some p =>
    if p.name = "root" then
      (updF st.1 k (setParentF none), some k)
    else if p.parentName ≠ "" then
      match lookupP st.1 p.parentName with
      | none => (updF st.1 k (setParentF none), st.2)
      | some _ =>
        (updF (updF st.1 k (setParentF (some p.parentName)))
          p.parentName (addChildF k), st.2)
    else
      match lookupP st.1 "root" with
      | none => (updF st.1 k (setParentF none), st.2)
      | some _ =>
        (updF (updF st.1 k (setParentF (some "root"))) "root" (addChildF k), st.2)

/-- The pass `BuildPieceHierarchy`: a single pass over all pieces of the map. -/
def buildH (ps : PMap) : PMap × Option String :=
  (ps.map Prod.fst).foldl buildStep (ps, none)

/-- The pass `BuildPieceHierarchy` acting on the model record. -/
def buildPieceHierarchyM (m : Model) : Model :=
  let r := buildH m.pieces
  { m with pieces := r.1, rootPieceName := r.2 }

/-- The parent reference the linking pass gives the piece `p`, as a function
of the original map (used to state what `buildH` does). -/
def expectedParent (ps : PMap) (p : Piece) : Option String :=
  if p.name = "root" then none
  else if p.parentName ≠ "" then
    if (lookupP ps p.parentName).isSome then some p.parentName else none
  else
    if (lookupP ps "root").isSome then some "root" else none

/-- Follow resolved parent references `n` times from key `k` (the parent
chain of the linked tree). -/
def chain (ps : PMap) : ℕ → String → Option String
  | 0, k => some k
  | n + 1, k =>
    match lookupP ps k with
    | some p =>
      match p.parent with
      | some j => chain ps n j
      | none => none
    | none => none

/-! ## `CAssParser::CalculateModelDimensions` and `CalculateModelProperties` -/

/-- The recursive dimension walk (`CalculateModelDimensions`): set each
visited piece's global offset from its baked matrix, local offset and the
parent's global offset, fold the model-wide extents, and recurse into the
children.  The C++ recursion is unbounded (and diverges on a cyclic children
relation, which `BuildPieceHierarchy` can produce); the embedding runs the
same depth-first visit through an explicit worklist of
`(piece key, parent global offset)` entries bounded by fuel — children are
pushed in front of the remaining work, which is exactly the recursion's
visiting order. -/
def calcDims : ℕ → PMap × Float3 × Float3 → List (String × Float3) →
    PMap × Float3 × Float3
  | _, st, [] => st
  | 0, st, _ :: _ => st
  | fuel + 1, st, (k, parentGoff) :: rest =>
    match lookupP st.1 k with
    | none => calcDims fuel st rest
    | some p =>
      let goff := p.scaleRotMatrix.mulVec p.offset + parentGoff
      let st1 : PMap × Float3 × Float3 :=
        (updF st.1 k (fun q => { q with goffset := goff }),
         compMin (goff + p.mins) st.2.1,
         compMax (goff + p.maxs) st.2.2)
      calcDims fuel st1 (p.children.map (fun c => (c, goff)) ++ rest)

/-- The dimension walk started at the model's root piece (zero parent offset;
a model without a root piece dereferences null in the C++ and is left
untouched here).  One fuel unit is spent per visited piece, so
`(number of pieces) + 1` suffices for every piece tree. -/
def calcDimsModel (m : Model) : PMap × Float3 × Float3 :=
  match m.rootPieceName with
  | none => (m.pieces, m.mins, m.maxs)
  | some r => calcDims (m.pieces.length + 1) (m.pieces, m.mins, m.maxs)
      [(r, zeroV)]

/-- The default radius of line 644: the length of the componentwise maximum of
the componentwise absolute values of the computed extents,
`std::max(std::fabs(maxs), std::fabs(mins)).Length()`. -/
noncomputable def defaultRadius (mins maxs : Float3) : ℝ :=
  len (compMax (absV maxs) (absV mins))

/-- The pass `CalculateModelProperties` (lines 636-651): run the dimension walk, then
recompute the mid-position Y from the computed extents, then set radius,
height, mid-position, mins and maxs from the overlay with the computed values
as defaults — note the radius and height defaults are computed afresh from
the extents, not from the model's current fields — and copy the final radius
into the draw radius. -/
noncomputable def calculateModelProperties (meta : MetaTable) (m : Model) : Model :=
  let d := calcDimsModel m
  let relMid1 : Float3 := ⟨m.relMidPos.x, (d.2.2.y - d.2.1.y) / 2, m.relMidPos.z⟩
  let rad : ℝ :=
    match meta.radius with
    | some r => ((r : ℚ) : ℝ)
    | none => defaultRadius d.2.1 d.2.2
  { m with
    pieces := d.1
    radius := rad
    height := meta.height.getD d.2.2.z
    relMidPos := meta.midpos.getD relMid1
    mins := meta.minsKey.getD d.2.1
    maxs := meta.maxsKey.getD d.2.2
    drawRadius := rad }

/-! ## The assembled load (`CAssParser::Load`, model-construction part) -/

/-- The state of the model after `CalculatePerMeshMinMax`, `FindTextures` and
the recursive `LoadPiece` pass, before hierarchy linking. -/
def loadPhase (scene : AScene) (meta : MetaTable) : Model :=
  let mm := calculatePerMeshMinMax scene.meshes
  let tex := findTexturesCore scene.materials meta
  let m0 : Model := { tex1 := tex.1, tex2 := tex.2 }
  loadPiece scene.meshes mm meta none scene.root m0

/-- The full model-construction pipeline of `Load` (texture upload, logging
and GPU concerns excluded). -/
noncomputable def loadModel (scene : AScene) (meta : MetaTable) : Model :=
  calculateModelProperties meta (buildPieceHierarchyM (loadPhase scene meta))

/-! ## Node counting (for the piece-count claims) -/

/-- Whether a node name is one of the sentinel names. -/
def isSentinelName (s : String) : Bool :=
  s = "SpringHeight" || s = "SpringRadius"

mutual

/-- Nodes the loader encounters: a sentinel node is encountered but its
children are never visited. -/
def encNodes : ANode → ℕ
  | ANode.mk n _ _ _ _ cs => if isSentinelName n then 1 else 1 + encNodesL cs

def encNodesL : List ANode → ℕ
  | [] => 0
  | c :: cs => encNodes c + encNodesL cs

end

mutual

/-- Sentinel nodes the loader encounters. -/
def encSent : ANode → ℕ
  | ANode.mk n _ _ _ _ cs => if isSentinelName n then 1 else encSentL cs

def encSentL : List ANode → ℕ
  | [] => 0
  | c :: cs => encSent c + encSentL cs

end

mutual

/-- All nodes of a scene subtree (the count the claim's phrase "number of
scene nodes" denotes). -/
def totNodes : ANode → ℕ
  | ANode.mk _ _ _ _ _ cs => 1 + totNodesL cs

def totNodesL : List ANode → ℕ
  | [] => 0
  | c :: cs => totNodes c + totNodesL cs

end

mutual

/-- All sentinel-named nodes of a scene subtree. -/
def totSent : ANode → ℕ
  | ANode.mk n _ _ _ _ cs => (if isSentinelName n then 1 else 0) + totSentL cs

def totSentL : List ANode → ℕ
  | [] => 0
  | c :: cs => totSent c + totSentL cs

end

/-! ## Componentwise order helpers for the min/max folds -/

/-! ## Helpers for stating what the linking pass does -/

/-- The `(name, parentName, parent)` triple of a piece: the fields the
hierarchy-linking pass reads and the field it writes. -/
def tripleOf (p : Piece) : String × String × Option String :=
  (p.name, p.parentName, p.parent)

/-- A bare piece with a given name and declared parent name (all other fields
at their constructor values), used to build concrete piece maps. -/
def mkP (name parentName : String) : Piece :=
  { name := name, parentName := parentName }

/-- Concrete piece map for the C3 instances: a root piece, a piece `"a"`
declaring the nonexistent parent `"ghost"`, and an orphan piece `"b"` with an
empty declared parent. -/
def C3map : PMap :=
  [("root", mkP "root" ""), ("a", mkP "a" "ghost"), ("b", mkP "b" "")]

/-- Concrete piece map for the C4 counterexample: the piece `"a"` declares
itself as its parent (reachable through an overlay `parent` key naming the
piece's own name). -/
def C4map : PMap :=
  [("root", mkP "root" ""), ("a", mkP "a" "a")]

/-- Concrete piece map for the C4 witness: a well-formed two-piece tree. -/
def C4wmap : PMap :=
  [("root", mkP "root" ""), ("a", mkP "a" "root")]

/-- Rank function witnessing acyclicity of `C4wmap`'s declared-parent
relation. -/
def C4wrank (k : String) : ℕ := if k = "root" then 0 else 1

/-- The engine constant `OnesVector`. -/
def onesV : Float3 := ⟨1, 1, 1⟩

/-- Scene with two sibling nodes both named `"X"` (the specification's
disambiguation example). -/
def sceneSiblings : AScene :=
  { meshes := [], materials := [],
    root := ANode.mk "R" onesV Mat3.idMat zeroV []
      [ANode.mk "X" onesV Mat3.idMat zeroV [] [],
       ANode.mk "X" onesV Mat3.idMat zeroV [] []] }

/-- Scene whose root node (import name `"R"`) has a child whose import name is
`"root"`: the child is named before the root piece is inserted. -/
def sceneC6 : AScene :=
  { meshes := [], materials := [],
    root := ANode.mk "R" onesV Mat3.idMat zeroV []
      [ANode.mk "root" onesV Mat3.idMat zeroV [] []] }

/-- Scene with a chain `R -> X -> X`: the two identically named descendants
collide because the outer `"X"` is inserted after its subtree. -/
def sceneC7 : AScene :=
  { meshes := [], materials := [],
    root := ANode.mk "R" onesV Mat3.idMat zeroV []
      [ANode.mk "X" onesV Mat3.idMat zeroV []
        [ANode.mk "X" onesV Mat3.idMat zeroV [] []]] }

/-- A one-node scene (C7 witness input). -/
def sceneC7w : AScene :=
  { meshes := [], materials := [], root := ANode.mk "R" onesV Mat3.idMat zeroV [] [] }

/-- C1 scene: the root carries a mesh with extents z in [-1, 3], and a
`"SpringHeight"` sentinel child with local translation Z = 5. -/
def sceneC1 : AScene :=
  { meshes := [AMesh.mk [⟨0, 0, 3⟩, ⟨0, 0, -1⟩] []], materials := [],
    root := ANode.mk "R" onesV Mat3.idMat zeroV [0]
      [ANode.mk "SpringHeight" onesV Mat3.idMat ⟨0, 0, 5⟩ [] []] }

/-- C2 scene: the root carries a mesh with extents maxs = (3,0,0),
mins = (0,-4,0); a `"SpringRadius"` sentinel child carries a mesh with maximum
x extent 2, so the sentinel sets the model radius to 2 during loading. -/
def sceneC2 : AScene :=
  { meshes := [AMesh.mk [⟨3, 0, 0⟩, ⟨0, -4, 0⟩] [],
               AMesh.mk [⟨2, 0, 0⟩, ⟨0, 0, 0⟩] []], materials := [],
    root := ANode.mk "R" onesV Mat3.idMat zeroV [0]
      [ANode.mk "SpringRadius" onesV Mat3.idMat zeroV [1] []] }

section

/- The Batteries rational operations are `@[irreducible]`, which keeps the
kernel from evaluating the embedded load pipeline on concrete scenes; within
this development they are restored to their natural reducibility so that
concrete evaluations go through `decide`. -/
attribute [local semireducible] Rat.add Rat.mul Rat.sub Rat.inv

instance : Std.Associative compMin := ⟨by
  intro a b c
  simp [compMin, min_assoc]⟩

instance : Std.Associative compMax := ⟨by
  intro a b c
  simp [compMax, max_assoc]⟩

/-- Componentwise extensionality for `Float3`. -/
theorem Float3.eq_of_comps {a b : Float3} (hx : a.x = b.x) (hy : a.y = b.y)
    (hz : a.z = b.z) : a = b := by
  cases a
  cases b
  simp_all

/-- A `compMin` fold is componentwise below its starting value. -/
theorem foldl_compMin_le (v : Float3) (l : List Float3) :
    (l.foldl compMin v).x ≤ v.x ∧ (l.foldl compMin v).y ≤ v.y ∧
      (l.foldl compMin v).z ≤ v.z := by
  induction l generalizing v with
  | nil => exact ⟨le_refl _, le_refl _, le_refl _⟩
  | cons w l ih =>
    have h := ih (compMin v w)
    exact ⟨le_trans h.1 (min_le_left _ _), le_trans h.2.1 (min_le_left _ _),
      le_trans h.2.2 (min_le_left _ _)⟩

/-- A `compMax` fold is componentwise above its starting value. -/
theorem foldl_compMax_ge (v : Float3) (l : List Float3) :
    v.x ≤ (l.foldl compMax v).x ∧ v.y ≤ (l.foldl compMax v).y ∧
      v.z ≤ (l.foldl compMax v).z := by
  induction l generalizing v with
  | nil => exact ⟨le_refl _, le_refl _, le_refl _⟩
  | cons w l ih =>
    have h := ih (compMax v w)
    exact ⟨le_trans (le_max_left _ _) h.1, le_trans (le_max_left _ _) h.2.1,
      le_trans (le_max_left _ _) h.2.2⟩

/-- C8 — During transform resolution, whenever the resolved scale vector's
three components are not all equal after applying the overlay
`scale`/`scalex`/`scaley`/`scalez` overrides (else the decomposed import
scale), the Y and Z components are silently forced equal to the X component. -/
theorem C8_nonuniform_scale_forced_uniform (pt : PieceTable) (s : Float3)
    (h : ¬((preScale pt s).x = (preScale pt s).y ∧
            (preScale pt s).y = (preScale pt s).z)) :
    resolveScale pt s =
      ⟨(preScale pt s).x, (preScale pt s).x, (preScale pt s).x⟩ := by
  have hcond : (preScale pt s).x ≠ (preScale pt s).y ∨
      (preScale pt s).y ≠ (preScale pt s).z := by
    by_contra hc
    push_neg at hc
    exact h ⟨hc.1, hc.2⟩
  simp only [resolveScale]
  rw [if_pos hcond]

/-- Witness for C8 at the claim's own example: decomposed scale `(2, 1, 1)`
with no overlay override resolves to `(2, 2, 2)`. -/
theorem C8_witness :
    ¬((preScale emptyPieceTable ⟨2, 1, 1⟩).x = (preScale emptyPieceTable ⟨2, 1, 1⟩).y ∧
        (preScale emptyPieceTable ⟨2, 1, 1⟩).y = (preScale emptyPieceTable ⟨2, 1, 1⟩).z) ∧
      resolveScale emptyPieceTable ⟨2, 1, 1⟩ = ⟨2, 2, 2⟩ := by
  refine ⟨by decide, ?_⟩
  have h := C8_nonuniform_scale_forced_uniform emptyPieceTable ⟨2, 1, 1⟩ (by decide)
  rw [h]
  decide

/-- C9 counterexample — a mesh whose single vertex lies beyond the sentinel at
`(20000, 0, 0)`: the claimed componentwise minimum over the vertex positions
is `(20000, 0, 0)`, but `CalculatePerMeshMinMax` yields `(10000, 0, 0)`
because the fold starts from the sentinel `(10000, 10000, 10000)` and the
sentinel clips the true extent. -/
theorem C9_counterexample :
    (meshMinMax [⟨20000, 0, 0⟩]).1 = ⟨10000, 0, 0⟩ ∧
      specVertexMin ⟨20000, 0, 0⟩ [] = ⟨20000, 0, 0⟩ ∧
      (⟨10000, 0, 0⟩ : Float3) ≠ ⟨20000, 0, 0⟩ := by
  decide

/-- C9 amended — per-mesh bounding aggregation equals the componentwise
min/max over the vertex positions whenever the first vertex's coordinates lie
strictly within the sentinel bound 10000 in absolute value (beyond the
sentinels the true extents are clipped), and a mesh with zero vertices yields
`min = max = (0, 0, 0)` rather than the sentinel vectors. -/
theorem C9_mesh_minmax (v : Float3) (vs : List Float3)
    (hx : |v.x| < 10000) (hy : |v.y| < 10000) (hz : |v.z| < 10000) :
    meshMinMax (v :: vs) = (specVertexMin v vs, specVertexMax v vs) ∧
      meshMinMax [] = (zeroV, zeroV) := by
  constructor
  · have hxlt := abs_lt.mp hx
    have hylt := abs_lt.mp hy
    have hzlt := abs_lt.mp hz
    have hminfold : (v :: vs).foldl compMin DEF_MIN_SIZE =
        compMin DEF_MIN_SIZE (vs.foldl compMin v) := by
      have : (v :: vs).foldl compMin DEF_MIN_SIZE =
          vs.foldl compMin (compMin DEF_MIN_SIZE v) := rfl
      rw [this, List.foldl_assoc]
    have hmaxfold : (v :: vs).foldl compMax DEF_MAX_SIZE =
        compMax DEF_MAX_SIZE (vs.foldl compMax v) := by
      have : (v :: vs).foldl compMax DEF_MAX_SIZE =
          vs.foldl compMax (compMax DEF_MAX_SIZE v) := rfl
      rw [this, List.foldl_assoc]
    have hle := foldl_compMin_le v vs
    have hge := foldl_compMax_ge v vs
    have hminabs : compMin DEF_MIN_SIZE (vs.foldl compMin v) = vs.foldl compMin v := by
      refine Float3.eq_of_comps ?_ ?_ ?_ <;> simp only [compMin, DEF_MIN_SIZE]
      · exact min_eq_right (le_of_lt (lt_of_le_of_lt hle.1 hxlt.2))
      · exact min_eq_right (le_of_lt (lt_of_le_of_lt hle.2.1 hylt.2))
      · exact min_eq_right (le_of_lt (lt_of_le_of_lt hle.2.2 hzlt.2))
    have hmaxabs : compMax DEF_MAX_SIZE (vs.foldl compMax v) = vs.foldl compMax v := by
      refine Float3.eq_of_comps ?_ ?_ ?_ <;> simp only [compMax, DEF_MAX_SIZE]
      · exact max_eq_right (le_of_lt (lt_of_lt_of_le hxlt.1 hge.1))
      · exact max_eq_right (le_of_lt (lt_of_lt_of_le hylt.1 hge.2.1))
      · exact max_eq_right (le_of_lt (lt_of_lt_of_le hzlt.1 hge.2.2))
    have hminne : vs.foldl compMin v ≠ DEF_MIN_SIZE := by
      intro hcontra
      have := hle.1
      rw [hcontra] at this
      exact absurd (lt_of_le_of_lt this hxlt.2) (lt_irrefl _)
    have hmaxne : vs.foldl compMax v ≠ DEF_MAX_SIZE := by
      intro hcontra
      have := hge.1
      rw [hcontra] at this
      exact absurd (lt_of_lt_of_le hxlt.1 this) (lt_irrefl _)
    simp only [meshMinMax, hminfold, hmaxfold, hminabs, hmaxabs,
      if_neg hminne, if_neg hmaxne, specVertexMin, specVertexMax]
  · decide

/-- Witness for C9 at the specification's own example: the mesh with vertices
`(1,2,3)` and `(-1,5,0)` yields min `(-1,2,0)` and max `(1,5,3)`, and the
empty mesh yields the zero pair. -/
theorem C9_witness :
    |(1 : ℚ)| < 10000 ∧
      meshMinMax [⟨1, 2, 3⟩, ⟨-1, 5, 0⟩] = (⟨-1, 2, 0⟩, ⟨1, 5, 3⟩) ∧
      meshMinMax [] = (zeroV, zeroV) := by
  have h := C9_mesh_minmax ⟨1, 2, 3⟩ [⟨-1, 5, 0⟩]
    (by norm_num) (by norm_num) (by norm_num)
  refine ⟨by norm_num, ?_, h.2⟩
  rw [h.1]
  decide

/-- C5 — the material scan of `FindTextures` (lines 677-687) assigns a
material texture to slot 1 only when the fetched string compares *equal* to
the empty string, so a first material whose diffuse texture is `"tex.png"`
contributes nothing and slot 1 stays empty; the overlay `tex1` key still wins
when present.  This evaluates the embedded code at the failing input of the
code-bug report. -/
theorem C5_material_scan_never_assigns :
    (findTexturesCore [⟨"tex.png", "", ""⟩] emptyMeta).1 = "" ∧
      (findTexturesCore [⟨"tex.png", "", ""⟩]
        { emptyMeta with tex1 := some "over.png" }).1 = "over.png" := by
  decide

/-! ## Association-list lemmas -/

theorem lookupP_updF_self (ps : PMap) (k : String) (f : Piece → Piece) :
    lookupP (updF ps k f) k = (lookupP ps k).map f := by
  induction ps with
  | nil => rfl
  | cons e ps ih =>
    rcases e with ⟨a, p⟩
    by_cases hak : a = k
    · subst hak
      simp [updF, lookupP]
    · simp [updF, lookupP, hak]
      exact ih

theorem lookupP_updF_other (ps : PMap) (k k' : String) (f : Piece → Piece)
    (h : k' ≠ k) : lookupP (updF ps k f) k' = lookupP ps k' := by
  induction ps with
  | nil => rfl
  | cons e ps ih =>
    rcases e with ⟨a, p⟩
    by_cases hak' : a = k'
    · have hank : ¬a = k := by
        rw [hak']
        exact h
      simp [updF, lookupP, hak', hank, h]
    · by_cases hak : a = k
      · have h' : ¬k = k' := fun hh => h hh.symm
        simp [updF, lookupP, hak, hak', h']
        exact ih
      · simp [updF, lookupP, hak, hak']
        exact ih

theorem isSome_lookupP_updF (ps : PMap) (k k' : String) (f : Piece → Piece) :
    (lookupP (updF ps k f) k').isSome = (lookupP ps k').isSome := by
  by_cases h : k' = k
  · subst h
    rw [lookupP_updF_self]
    cases lookupP ps k' <;> rfl
  · rw [lookupP_updF_other ps k k' f h]

theorem tripleOf_lookupP_updF (ps : PMap) (k : String) (f : Piece → Piece)
    (hf : ∀ p, tripleOf (f p) = tripleOf p) (k' : String) :
    (lookupP (updF ps k f) k').map tripleOf = (lookupP ps k').map tripleOf := by
  by_cases h : k' = k
  · subst h
    rw [lookupP_updF_self]
    cases lookupP ps k' with
    | none => rfl
    | some p => simp [hf p]
  · rw [lookupP_updF_other ps k k' f h]

theorem lookupP_append (ps qs : PMap) (k : String) :
    lookupP (ps ++ qs) k =
      match lookupP ps k with
      | some v => some v
      | none => lookupP qs k := by
  induction ps with
  | nil => rfl
  | cons e ps ih =>
    by_cases h : e.1 = k
    · simp [lookupP, h]
    · simp [lookupP, h, ih]

theorem lookupP_insertP_self (ps : PMap) (k : String) (p : Piece) :
    lookupP (insertP ps k p) k = some p := by
  unfold insertP
  by_cases h : (lookupP ps k).isSome
  · rw [if_pos h]
    have : ps.map (fun e => if e.1 = k then (e.1, p) else e) =
        updF ps k (fun _ => p) := rfl
    rw [this, lookupP_updF_self]
    rcases hv : lookupP ps k with _ | v
    · rw [hv] at h
      simp at h
    · rfl
  · rw [if_neg h, lookupP_append]
    rcases hv : lookupP ps k with _ | v
    · simp [lookupP]
    · rw [hv] at h
      simp at h

theorem lookupP_insertP_other (ps : PMap) (k k' : String) (p : Piece)
    (h : k' ≠ k) : lookupP (insertP ps k p) k' = lookupP ps k' := by
  unfold insertP
  by_cases hs : (lookupP ps k).isSome
  · rw [if_pos hs]
    have : ps.map (fun e => if e.1 = k then (e.1, p) else e) =
        updF ps k (fun _ => p) := rfl
    rw [this, lookupP_updF_other ps k k' _ h]
  · rw [if_neg hs, lookupP_append]
    rcases hv : lookupP ps k' with _ | v
    · have h' : ¬k = k' := fun hh => h hh.symm
      simp [lookupP, h']
    · rfl

theorem mem_of_lookupP (ps : PMap) (k : String) (p : Piece)
    (h : lookupP ps k = some p) : (k, p) ∈ ps := by
  induction ps with
  | nil => simp [lookupP] at h
  | cons e ps ih =>
    rcases e with ⟨a, q⟩
    by_cases hak : a = k
    · subst hak
      simp [lookupP] at h
      simp [h]
    · simp [lookupP, hak] at h
      exact List.mem_cons_of_mem _ (ih h)

theorem mem_keys_of_lookupP (ps : PMap) (k : String) (p : Piece)
    (h : lookupP ps k = some p) : k ∈ ps.map Prod.fst := by
  have := mem_of_lookupP ps k p h
  exact List.mem_map.mpr ⟨(k, p), this, rfl⟩

/-! ## What one linking step does -/

theorem buildStep_isSome (st : PMap × Option String) (kk k' : String) :
    (lookupP (buildStep st kk).1 k').isSome = (lookupP st.1 k').isSome := by
  unfold buildStep
  rcases h : lookupP st.1 kk with _ | p
  · rfl
  · by_cases h1 : p.name = "root"
    · simp [h1, isSome_lookupP_updF]
    · by_cases h2 : p.parentName = ""
      · simp only [h1, h2, if_neg, ite_not]
        rcases h3 : lookupP st.1 "root" with _ | r <;>
          simp [h1, h2, h3, isSome_lookupP_updF]
      · rcases h3 : lookupP st.1 p.parentName with _ | r <;>
          simp [h1, h2, h3, isSome_lookupP_updF]

theorem tripleOf_addChildF (c : String) (q : Piece) :
    tripleOf (addChildF c q) = tripleOf q := rfl

theorem buildStep_triple_other (st : PMap × Option String) (kk k : String)
    (h : k ≠ kk) :
    (lookupP (buildStep st kk).1 k).map tripleOf =
      (lookupP st.1 k).map tripleOf := by
  unfold buildStep
  rcases hkk : lookupP st.1 kk with _ | p
  · rfl
  · dsimp only
    by_cases h1 : p.name = "root"
    · rw [if_pos h1]
      rw [show (updF st.1 kk (setParentF none), some kk).1 =
        updF st.1 kk (setParentF none) from rfl]
      rw [lookupP_updF_other st.1 kk k (setParentF none) h]
    · rw [if_neg h1]
      by_cases h2 : p.parentName = ""
      · rw [if_neg (not_not_intro h2)]
        rcases h3 : lookupP st.1 "root" with _ | r
        · rw [show (updF st.1 kk (setParentF none), st.2).1 =
            updF st.1 kk (setParentF none) from rfl]
          rw [lookupP_updF_other st.1 kk k (setParentF none) h]
        · rw [show (updF (updF st.1 kk (setParentF (some "root"))) "root"
            (addChildF kk), st.2).1 =
            updF (updF st.1 kk (setParentF (some "root"))) "root" (addChildF kk)
            from rfl]
          rw [tripleOf_lookupP_updF (updF st.1 kk (setParentF (some "root")))
            "root" (addChildF kk) (tripleOf_addChildF kk) k]
          rw [lookupP_updF_other st.1 kk k (setParentF (some "root")) h]
      · rw [if_pos h2]
        rcases h3 : lookupP st.1 p.parentName with _ | r
        · rw [show (updF st.1 kk (setParentF none), st.2).1 =
            updF st.1 kk (setParentF none) from rfl]
          rw [lookupP_updF_other st.1 kk k (setParentF none) h]
        · rw [show (updF (updF st.1 kk (setParentF (some p.parentName)))
            p.parentName (addChildF kk), st.2).1 =
            updF (updF st.1 kk (setParentF (some p.parentName))) p.parentName
            (addChildF kk) from rfl]
          rw [tripleOf_lookupP_updF (updF st.1 kk (setParentF (some p.parentName)))
            p.parentName (addChildF kk) (tripleOf_addChildF kk) k]
          rw [lookupP_updF_other st.1 kk k (setParentF (some p.parentName)) h]

theorem buildStep_self_triple (st : PMap × Option String) (k : String) (p : Piece)
    (hk : lookupP st.1 k = some p) :
    (lookupP (buildStep st k).1 k).map tripleOf =
      some (p.name, p.parentName, expectedParent st.1 p) := by
  unfold buildStep
  rw [hk]
  dsimp only
  by_cases h1 : p.name = "root"
  · have hE : expectedParent st.1 p = none := by simp [expectedParent, h1]
    rw [if_pos h1, hE]
    rw [show (updF st.1 k (setParentF none), some k).1 =
      updF st.1 k (setParentF none) from rfl]
    rw [lookupP_updF_self st.1 k (setParentF none), hk]
    rfl
  · rw [if_neg h1]
    by_cases h2 : p.parentName = ""
    · rw [if_neg (not_not_intro h2)]
      rcases h3 : lookupP st.1 "root" with _ | r
      · have hE : expectedParent st.1 p = none := by
          simp [expectedParent, h1, h2, h3]
        rw [hE]
        rw [show (updF st.1 k (setParentF none), st.2).1 =
          updF st.1 k (setParentF none) from rfl]
        rw [lookupP_updF_self st.1 k (setParentF none), hk]
        rfl
      · have hE : expectedParent st.1 p = some "root" := by
          simp [expectedParent, h1, h2, h3]
        rw [hE]
        rw [show (updF (updF st.1 k (setParentF (some "root"))) "root"
          (addChildF k), st.2).1 =
          updF (updF st.1 k (setParentF (some "root"))) "root" (addChildF k)
          from rfl]
        rw [tripleOf_lookupP_updF (updF st.1 k (setParentF (some "root")))
          "root" (addChildF k) (tripleOf_addChildF k) k]
        rw [lookupP_updF_self st.1 k (setParentF (some "root")), hk]
        rfl
    · rw [if_pos h2]
      rcases h3 : lookupP st.1 p.parentName with _ | r
      · have hE : expectedParent st.1 p = none := by
          simp [expectedParent, h1, h2, h3]
        rw [hE]
        rw [show (updF st.1 k (setParentF none), st.2).1 =
          updF st.1 k (setParentF none) from rfl]
        rw [lookupP_updF_self st.1 k (setParentF none), hk]
        rfl
      · have hE : expectedParent st.1 p = some p.parentName := by
          simp [expectedParent, h1, h2, h3]
        rw [hE]
        rw [show (updF (updF st.1 k (setParentF (some p.parentName)))
          p.parentName (addChildF k), st.2).1 =
          updF (updF st.1 k (setParentF (some p.parentName))) p.parentName
          (addChildF k) from rfl]
        rw [tripleOf_lookupP_updF (updF st.1 k (setParentF (some p.parentName)))
          p.parentName (addChildF k) (tripleOf_addChildF k) k]
        rw [lookupP_updF_self st.1 k (setParentF (some p.parentName)), hk]
        rfl

theorem foldSteps_isSome (l : List String) (st : PMap × Option String)
    (k' : String) :
    (lookupP (l.foldl buildStep st).1 k').isSome = (lookupP st.1 k').isSome := by
  induction l generalizing st with
  | nil => rfl
  | cons a l ih => rw [List.foldl_cons, ih, buildStep_isSome]

theorem foldSteps_triple_notmem (l : List String) (st : PMap × Option String)
    (k : String) (h : k ∉ l) :
    (lookupP (l.foldl buildStep st).1 k).map tripleOf =
      (lookupP st.1 k).map tripleOf := by
  induction l generalizing st with
  | nil => rfl
  | cons a l ih =>
    have hka : k ≠ a := fun hh => h (hh ▸ List.mem_cons_self a l)
    have hkl : k ∉ l := fun hh => h (List.mem_cons_of_mem a hh)
    rw [List.foldl_cons, ih _ hkl, buildStep_triple_other st a k hka]

theorem expectedParent_congr (ps qs : PMap) (p q : Piece)
    (hname : q.name = p.name) (hpn : q.parentName = p.parentName)
    (hsome : ∀ k', (lookupP qs k').isSome = (lookupP ps k').isSome) :
    expectedParent qs q = expectedParent ps p := by
  unfold expectedParent
  rw [hname, hpn, hsome p.parentName, hsome "root"]

/-- The master lemma about `BuildPieceHierarchy`: on a map with distinct keys,
the pass keeps every piece's name and declared parent name and sets its parent
reference to exactly `expectedParent`. -/
theorem build_parent_spec (ps : PMap) (hnd : (ps.map Prod.fst).Nodup)
    (k : String) (p : Piece) (hk : lookupP ps k = some p) :
    (lookupP (buildH ps).1 k).map tripleOf =
      some (p.name, p.parentName, expectedParent ps p) := by
  have hmem := mem_keys_of_lookupP ps k p hk
  obtain ⟨s, t, hst⟩ := List.append_of_mem hmem
  have hnd' : (s ++ k :: t).Nodup := hst ▸ hnd
  rw [List.nodup_append] at hnd'
  obtain ⟨hs, hct, hdisj⟩ := hnd'
  have hkt : k ∉ t := (List.nodup_cons.mp hct).1
  have hks : k ∉ s := fun hin => hdisj hin (List.mem_cons_self k t)
  unfold buildH
  rw [hst, List.foldl_append, List.foldl_cons]
  have htrip1 : (lookupP (s.foldl buildStep (ps, none)).1 k).map tripleOf =
      (lookupP ps k).map tripleOf :=
    foldSteps_triple_notmem s (ps, none) k hks
  rw [hk] at htrip1
  rcases hB : lookupP (s.foldl buildStep (ps, none)).1 k with _ | p1
  · rw [hB] at htrip1
    simp at htrip1
  · rw [hB] at htrip1
    simp only [Option.map_some'] at htrip1
    obtain ⟨hn, hpn2, _⟩ : p1.name = p.name ∧ p1.parentName = p.parentName ∧
        p1.parent = p.parent := by
      have := Option.some.inj htrip1
      simpa [tripleOf, Prod.ext_iff] using this
    have hsome1 : ∀ k', (lookupP (s.foldl buildStep (ps, none)).1 k').isSome =
        (lookupP ps k').isSome :=
      fun k' => foldSteps_isSome s (ps, none) k'
    have hself := buildStep_self_triple (s.foldl buildStep (ps, none)) k p1 hB
    have hexp : expectedParent (s.foldl buildStep (ps, none)).1 p1 =
        expectedParent ps p :=
      expectedParent_congr ps (s.foldl buildStep (ps, none)).1 p p1 hn hpn2 hsome1
    rw [foldSteps_triple_notmem t _ k hkt, hself, hexp, hn, hpn2]

theorem chain_succ_of_parent (ps : PMap) (n : ℕ) (k j : String) (p : Piece)
    (hk : lookupP ps k = some p) (hj : p.parent = some j) :
    chain ps (n + 1) k = chain ps n j := by
  simp [chain, hk, hj]

/-- C3 counterexample — on the piece map with a root piece, a piece `"a"`
declaring the missing parent `"ghost"` and an orphan piece `"b"`,
`BuildPieceHierarchy` leaves `"a"` unlinked (null parent) instead of
attaching it under `"root"` as the claim states; only the orphan `"b"`
(empty declared parent) is attached under `"root"`. -/
theorem C3_counterexample :
    (lookupP (buildH C3map).1 "a").map (fun p => p.parent) = some none ∧
      (lookupP (buildH C3map).1 "root").map (fun p => p.children) = some ["b"] := by
  decide

/-- C3 amended — during hierarchy linking, a piece (other than the root
piece) whose non-empty declared parent name does not match any piece is left
unlinked with a null parent (the error is logged); the fallback attachment
under `"root"` applies only to pieces whose declared parent name is empty. -/
theorem C3_unresolved_parent_unlinked (ps : PMap)
    (hnd : (ps.map Prod.fst).Nodup) (k : String) (p : Piece)
    (hk : lookupP ps k = some p) (hname : p.name ≠ "root") :
    ∃ p', lookupP (buildH ps).1 k = some p' ∧
      p'.name = p.name ∧ p'.parentName = p.parentName ∧
      (p.parentName ≠ "" → lookupP ps p.parentName = none → p'.parent = none) ∧
      (p.parentName = "" → (lookupP ps "root").isSome → p'.parent = some "root") := by
  have hspec := build_parent_spec ps hnd k p hk
  rcases hB : lookupP (buildH ps).1 k with _ | p'
  · rw [hB] at hspec
    simp at hspec
  · rw [hB] at hspec
    obtain ⟨hn', hpn', hpar'⟩ : p'.name = p.name ∧ p'.parentName = p.parentName ∧
        p'.parent = expectedParent ps p := by
      have := Option.some.inj hspec
      simpa [tripleOf, Prod.ext_iff] using this
    refine ⟨p', rfl, hn', hpn', ?_, ?_⟩
    · intro hne hmiss
      rw [hpar']
      simp [expectedParent, hname, hne, hmiss]
    · intro hemp hroot
      rw [hpar']
      simp [expectedParent, hname, hemp, hroot]

/-- Witness for C3 on the concrete map `C3map`, at the piece `"a"` whose
declared parent `"ghost"` is missing. -/
theorem C3_witness :
    (C3map.map Prod.fst).Nodup ∧
      (∃ p', lookupP (buildH C3map).1 "a" = some p' ∧
        p'.name = (mkP "a" "ghost").name ∧
        p'.parentName = (mkP "a" "ghost").parentName ∧
        ((mkP "a" "ghost").parentName ≠ "" →
          lookupP C3map (mkP "a" "ghost").parentName = none → p'.parent = none) ∧
        ((mkP "a" "ghost").parentName = "" →
          (lookupP C3map "root").isSome → p'.parent = some "root")) :=
  ⟨by decide, C3_unresolved_parent_unlinked C3map (by decide) "a" (mkP "a" "ghost")
    (by decide) (by decide)⟩

/-- C4 counterexample — on the fully populated piece map `C4map`, where piece
`"a"` declares itself as its parent (as an overlay `parent` key may), the
linked parent chain of `"a"` is a cycle and never reaches `"root"`. -/
theorem C4_counterexample :
    ¬∃ n, chain (buildH C4map).1 n "a" = some "root" := by
  have hL : ∃ p, lookupP (buildH C4map).1 "a" = some p ∧ p.parent = some "a" := by
    rcases hB : lookupP (buildH C4map).1 "a" with _ | p
    · exact absurd hB (by decide)
    · refine ⟨p, rfl, ?_⟩
      have hmap : (lookupP (buildH C4map).1 "a").map (fun q => q.parent) =
          some (some "a") := by decide
      rw [hB] at hmap
      simpa using hmap
  obtain ⟨p, hp, hpar⟩ := hL
  rintro ⟨n, hn⟩
  have hloop : ∀ m, chain (buildH C4map).1 m "a" = some "a" := by
    intro m
    induction m with
    | zero => rfl
    | succ m ihm =>
      rw [chain_succ_of_parent (buildH C4map).1 m "a" "a" p hp hpar]
      exact ihm
  rw [hloop n] at hn
  exact absurd hn (by decide)

/-- C4 amended — after `BuildPieceHierarchy` on a piece map with distinct
keys whose pieces are keyed by their names, where a `"root"` piece exists,
every non-empty declared parent name resolves, and the declared-parent
relation is acyclic (witnessed by a rank function it strictly decreases),
every piece other than `"root"` has a parent-reference chain that reaches the
`"root"` piece in finitely many steps. -/
theorem C4_parent_chains_reach_root (ps : PMap)
    (hnd : (ps.map Prod.fst).Nodup) (rank : String → ℕ)
    (hname : ∀ e ∈ ps, (e.2 : Piece).name = e.1)
    (hroot : (lookupP ps "root").isSome)
    (hres : ∀ e ∈ ps, (e.2 : Piece).parentName ≠ "" →
      (lookupP ps (e.2 : Piece).parentName).isSome)
    (hrank : ∀ e ∈ ps, e.1 ≠ "root" → (e.2 : Piece).parentName ≠ "" →
      rank (e.2 : Piece).parentName < rank e.1) :
    ∀ k, k ≠ "root" → (lookupP ps k).isSome →
      ∃ n, chain (buildH ps).1 n k = some "root" := by
  suffices H : ∀ r k, rank k < r → k ≠ "root" → (lookupP ps k).isSome →
      ∃ n, chain (buildH ps).1 n k = some "root" by
    exact fun k hk hs => H (rank k + 1) k (Nat.lt_succ_self _) hk hs
  intro r
  induction r with
  | zero =>
    intro k h _ _
    exact absurd h (Nat.not_lt_zero _)
  | succ r ih =>
    intro k hlt hk hs
    rcases hps : lookupP ps k with _ | p
    · rw [hps] at hs
      simp at hs
    · have hmem := mem_of_lookupP ps k p hps
      have hpname : p.name = k := hname (k, p) hmem
      have hnroot : p.name ≠ "root" := by
        rw [hpname]
        exact hk
      have hspec := build_parent_spec ps hnd k p hps
      rcases hB : lookupP (buildH ps).1 k with _ | p'
      · rw [hB] at hspec
        simp at hspec
      · rw [hB] at hspec
        obtain ⟨hn', hpn', hpar'⟩ : p'.name = p.name ∧ p'.parentName = p.parentName ∧
            p'.parent = expectedParent ps p := by
          have := Option.some.inj hspec
          simpa [tripleOf, Prod.ext_iff] using this
        by_cases h2 : p.parentName = ""
        · have hE : expectedParent ps p = some "root" := by
            simp [expectedParent, hnroot, h2, hroot]
          refine ⟨1, ?_⟩
          rw [chain_succ_of_parent (buildH ps).1 0 k "root" p' hB
            (by rw [hpar', hE])]
          rfl
        · have hjs : (lookupP ps p.parentName).isSome := hres (k, p) hmem h2
          have hE : expectedParent ps p = some p.parentName := by
            simp [expectedParent, hnroot, h2, hjs]
          by_cases hjr : p.parentName = "root"
          · refine ⟨1, ?_⟩
            rw [chain_succ_of_parent (buildH ps).1 0 k p.parentName p' hB
              (by rw [hpar', hE])]
            rw [hjr]
            rfl
          · have hrk : rank p.parentName < rank k := hrank (k, p) hmem hk h2
            obtain ⟨n, hn⟩ := ih p.parentName (by omega) hjr hjs
            refine ⟨n + 1, ?_⟩
            rw [chain_succ_of_parent (buildH ps).1 n k p.parentName p' hB
              (by rw [hpar', hE])]
            exact hn

/-- Witness for C4 on the concrete two-piece map `C4wmap` with ranking
`C4wrank`, at the piece `"a"`. -/
theorem C4_witness :
    (C4wmap.map Prod.fst).Nodup ∧
      (∃ n, chain (buildH C4wmap).1 n "a" = some "root") :=
  ⟨by decide, C4_parent_chains_reach_root C4wmap (by decide) C4wrank (by decide)
    (by decide) (by decide) (by decide) "a" (by decide) (by decide)⟩

/-! ## The disambiguated name is fresh -/

theorem digitVal_digitChr (d : ℕ) (h : d < 10) : digitVal (digitChr d) = d := by
  interval_cases d <;> rfl

theorem decDigits_natToStrAux (fuel n : ℕ) (hfuel : n ≤ fuel) :
    decDigits (natToStrAux fuel n) = n := by
  induction fuel generalizing n with
  | zero =>
    have hn : n = 0 := by omega
    subst hn
    rfl
  | succ fuel ih =>
    by_cases h : n < 10
    · rw [natToStrAux, if_pos h]
      simp [decDigits, digitVal_digitChr n h]
    · rw [natToStrAux, if_neg h]
      have hdiv : n / 10 < n := Nat.div_lt_self (by omega) (by omega)
      have hrec := ih (n / 10) (by omega)
      simp only [decDigits, List.foldl_append, List.foldl_cons, List.foldl_nil]
      simp only [decDigits] at hrec
      rw [hrec, digitVal_digitChr (n % 10) (Nat.mod_lt n (by omega))]
      omega

theorem decDigits_natToStrL (n : ℕ) : decDigits (natToStrL n) = n :=
  decDigits_natToStrAux n n (le_refl n)

theorem decDigits_pad2 (i : ℕ) : decDigits (pad2 i).data = i := by
  unfold pad2
  by_cases h : i < 10
  · rw [if_pos h]
    have hdata : (String.mk ('0' :: natToStrL i)).data = '0' :: natToStrL i := rfl
    rw [hdata]
    have hstep : decDigits ('0' :: natToStrL i) = decDigits (natToStrL i) := rfl
    rw [hstep, decDigits_natToStrL]
  · rw [if_neg h]
    exact decDigits_natToStrL i

theorem pad2_inj : Function.Injective pad2 := by
  intro i j h
  have := congrArg (fun s => decDigits s.data) h
  simpa [decDigits_pad2] using this

theorem candidate_inj (base : String) : Function.Injective (fun j => base ++ pad2 j) := by
  intro i j h
  have hdata : (base ++ pad2 i).data = (base ++ pad2 j).data :=
    congrArg String.data h
  rw [String.data_append, String.data_append] at hdata
  exact pad2_inj (String.ext (List.append_cancel_left hdata))

theorem findFreeName_isNone (ps : PMap) (base : String) :
    ∀ (fuel i : ℕ),
      (∃ j, i ≤ j ∧ j < i + fuel ∧ (lookupP ps (base ++ pad2 j)).isNone) →
      (lookupP ps (findFreeName ps base fuel i)).isNone := by
  intro fuel
  induction fuel with
  | zero =>
    rintro i ⟨j, h1, h2, _⟩
    omega
  | succ fuel ih =>
    rintro i ⟨j, hij, hlt, hfree⟩
    by_cases h : (lookupP ps (base ++ pad2 i)).isNone
    · simp [findFreeName, h]
    · simp only [findFreeName, h, if_neg, Bool.false_eq_true, if_false]
      apply ih
      have hji : j ≠ i := by
        rintro rfl
        exact h hfree
      exact ⟨j, by omega, by omega, hfree⟩

theorem exists_free_candidate (ps : PMap) (base : String) :
    ∃ j, j < ps.length + 1 ∧ (lookupP ps (base ++ pad2 j)).isNone := by
  by_contra hcon
  push_neg at hcon
  have hmemf : ∀ j < ps.length + 1, (base ++ pad2 j) ∈ ps.map Prod.fst := by
    intro j hj
    have hx := hcon j hj
    rcases hL : lookupP ps (base ++ pad2 j) with _ | p
    · rw [hL] at hx
      simp at hx
    · exact mem_keys_of_lookupP ps _ p hL
  have hsub : ((List.range (ps.length + 1)).map (fun j => base ++ pad2 j)) ⊆
      ps.map Prod.fst := by
    intro a ha
    rcases List.mem_map.mp ha with ⟨j, hj, rfl⟩
    exact hmemf j (List.mem_range.mp hj)
  have hnd : ((List.range (ps.length + 1)).map (fun j => base ++ pad2 j)).Nodup :=
    (List.nodup_range _).map (candidate_inj base)
  have hsubperm := List.subperm_of_subset hnd hsub
  have hlen := hsubperm.length_le
  simp only [List.length_map, List.length_range] at hlen
  omega

/-- The name the naming pass returns is never a key of the current piece
map. -/
theorem chooseName_fresh (ps : PMap) (hp : Bool) (raw : String) :
    lookupP ps (chooseName ps hp raw) = none := by
  unfold chooseName
  set n1 := if (if hp then raw else "root") = "" then "piece"
    else if hp then raw else "root" with hn1
  by_cases h : (lookupP ps n1).isNone
  · rw [if_pos h]
    exact Option.isNone_iff_eq_none.mp h
  · rw [if_neg h]
    apply Option.isNone_iff_eq_none.mp
    apply findFreeName_isNone ps n1 (ps.length + 1) 0
    obtain ⟨j, hj, hfree⟩ := exists_free_candidate ps n1
    exact ⟨j, by omega, by omega, hfree⟩

/-- C6 counterexample — in the scene whose root (import name `"R"`) has a
child with import name `"root"`, the child is processed and named while the
piece map is still empty (its ancestor is inserted only after the recursion
returns), so the naming pass gives the child the name `"root"` — the same
name the root piece gets — and the root piece's later insertion overwrites
the child: a two-node sentinel-free scene ends with a single piece in the
map, so the naming is not collision-free for every input scene. -/
theorem C6_counterexample :
    chooseName [] true "root" = "root" ∧
      (loadPhase sceneC6 emptyMeta).pieces.length = 1 ∧
      totNodes sceneC6.root = 2 ∧ totSent sceneC6.root = 0 := by
  decide

/-- C6 amended — the scene root is named `"root"`, an empty name becomes
`"piece"`, and the chosen name never collides with any piece already inserted
in the map (so the sibling example `"X"`/`"X00"` works); but the collision
check only sees already-inserted pieces, and since a node is inserted after
its descendants, a descendant may receive the same name as an ancestor, in
which case the ancestor's later insertion overwrites the descendant. -/
theorem C6_naming_fresh_against_inserted :
    (∀ (ps : PMap) (hp : Bool) (raw : String),
      lookupP ps (chooseName ps hp raw) = none) ∧
      (∀ raw : String, chooseName [] false raw = "root") ∧
      chooseName [] true "" = "piece" ∧
      (lookupP (loadPhase sceneSiblings emptyMeta).pieces "X").isSome ∧
      (lookupP (loadPhase sceneSiblings emptyMeta).pieces "X00").isSome ∧
      (loadPhase sceneSiblings emptyMeta).pieces.length = 3 :=
  ⟨chooseName_fresh, fun _ => rfl, by decide, by decide, by decide, by decide⟩

/-! ## Piece counting through the recursive load -/

mutual

theorem loadPiece_count (meshes : List AMesh) (mm : List (Float3 × Float3))
    (meta : MetaTable) (pinfo : Option (String × Bool)) :
    ∀ (node : ANode) (m : Model),
      (loadPiece meshes mm meta pinfo node m).numPieces + encSent node =
        m.numPieces + encNodes node
  | ANode.mk n sc rot tr ms cs, m => by
    simp only [loadPiece]
    by_cases h1 : n = "SpringHeight"
    · simp only [if_pos h1, encSent, encNodes, isSentinelName, h1]
      by_cases hh : meta.height.isNone
      · simp [hh]
      · simp [hh]
    · by_cases h2 : n = "SpringRadius"
      · simp only [if_neg h1, if_pos h2, encSent, encNodes, isSentinelName, h2]
        by_cases hm : meta.midpos.isNone
        · by_cases hr : meta.radius.isNone
          · by_cases hext : (unionMeshExtents mm ms).2.x ≤ 1 / 100000
            · simp [hm, hr, hext]
            · simp [hm, hr, hext]
          · simp [hm, hr]
        · by_cases hr : meta.radius.isNone
          · by_cases hext : (unionMeshExtents mm ms).2.x ≤ 1 / 100000
            · simp [hm, hr, hext]
            · simp [hm, hr, hext]
          · simp [hm, hr]
      · simp only [if_neg h1, if_neg h2]
        have hsent : isSentinelName n = false := by
          simp [isSentinelName, h1, h2]
        have hch := loadChildren_count meshes mm meta (some (n, pinfo.isSome)) cs
          { m with numPieces := m.numPieces + 1 }
        simp only [encSent, encNodes, hsent, if_neg, Bool.false_eq_true, if_false]
        simp only at hch
        omega

theorem loadChildren_count (meshes : List AMesh) (mm : List (Float3 × Float3))
    (meta : MetaTable) (pinfo : Option (String × Bool)) :
    ∀ (cs : List ANode) (m : Model),
      (loadChildren meshes mm meta pinfo cs m).numPieces + encSentL cs =
        m.numPieces + encNodesL cs
  | [], m => by simp [loadChildren, encSentL, encNodesL]
  | c :: cs, m => by
    have h1 := loadPiece_count meshes mm meta pinfo c m
    have h2 := loadChildren_count meshes mm meta pinfo cs
      (loadPiece meshes mm meta pinfo c m)
    simp only [loadChildren, encSentL, encNodesL]
    omega

end

/-! ## Name preservation through linking and the dimension walk -/

theorem name_lookupP_updF (ps : PMap) (k : String) (f : Piece → Piece)
    (hf : ∀ p, (f p).name = p.name) (k' : String) :
    (lookupP (updF ps k f) k').map (fun p => p.name) =
      (lookupP ps k').map (fun p => p.name) := by
  by_cases h : k' = k
  · subst h
    rw [lookupP_updF_self]
    cases lookupP ps k' with
    | none => rfl
    | some p => simp [hf p]
  · rw [lookupP_updF_other ps k k' f h]

theorem buildStep_name (st : PMap × Option String) (kk k' : String) :
    (lookupP (buildStep st kk).1 k').map (fun p => p.name) =
      (lookupP st.1 k').map (fun p => p.name) := by
  unfold buildStep
  rcases hkk : lookupP st.1 kk with _ | p
  · rfl
  · dsimp only
    by_cases h1 : p.name = "root"
    · rw [if_pos h1]
      exact name_lookupP_updF st.1 kk (setParentF none) (fun q => rfl) k'
    · rw [if_neg h1]
      by_cases h2 : p.parentName = ""
      · rw [if_neg (not_not_intro h2)]
        rcases h3 : lookupP st.1 "root" with _ | r
        · exact name_lookupP_updF st.1 kk (setParentF none) (fun q => rfl) k'
        · rw [show (updF (updF st.1 kk (setParentF (some "root"))) "root"
            (addChildF kk), st.2).1 =
            updF (updF st.1 kk (setParentF (some "root"))) "root" (addChildF kk)
            from rfl]
          rw [name_lookupP_updF (updF st.1 kk (setParentF (some "root"))) "root"
            (addChildF kk) (fun q => rfl) k']
          exact name_lookupP_updF st.1 kk (setParentF (some "root")) (fun q => rfl) k'
      · rw [if_pos h2]
        rcases h3 : lookupP st.1 p.parentName with _ | r
        · exact name_lookupP_updF st.1 kk (setParentF none) (fun q => rfl) k'
        · rw [show (updF (updF st.1 kk (setParentF (some p.parentName)))
            p.parentName (addChildF kk), st.2).1 =
            updF (updF st.1 kk (setParentF (some p.parentName))) p.parentName
            (addChildF kk) from rfl]
          rw [name_lookupP_updF (updF st.1 kk (setParentF (some p.parentName)))
            p.parentName (addChildF kk) (fun q => rfl) k']
          exact name_lookupP_updF st.1 kk (setParentF (some p.parentName))
            (fun q => rfl) k'

theorem buildH_name (ps : PMap) (k' : String) :
    (lookupP (buildH ps).1 k').map (fun p => p.name) =
      (lookupP ps k').map (fun p => p.name) := by
  unfold buildH
  generalize (ps.map Prod.fst) = l
  suffices H : ∀ (l : List String) (st : PMap × Option String),
      (lookupP (l.foldl buildStep st).1 k').map (fun p => p.name) =
        (lookupP st.1 k').map (fun p => p.name) by
    exact H l (ps, none)
  intro l
  induction l with
  | nil => intro st; rfl
  | cons a l ih =>
    intro st
    rw [List.foldl_cons, ih, buildStep_name]

theorem calcDims_name (k' : String) :
    ∀ (fuel : ℕ) (st : PMap × Float3 × Float3) (wl : List (String × Float3)),
      (lookupP (calcDims fuel st wl).1 k').map (fun p => p.name) =
        (lookupP st.1 k').map (fun p => p.name) := by
  intro fuel
  induction fuel with
  | zero =>
    intro st wl
    cases wl <;> rfl
  | succ fuel ih =>
    intro st wl
    rcases wl with _ | ⟨⟨k, g⟩, rest⟩
    · rfl
    · rw [calcDims]
      rcases h : lookupP st.1 k with _ | p
      · exact ih st rest
      · dsimp only
        rw [ih]
        exact name_lookupP_updF st.1 k
          (fun q => { q with goffset := p.scaleRotMatrix.mulVec p.offset + g })
          (fun q => rfl) k'

/-- C7 counterexample — the scene `R -> X -> X` (three nodes, no sentinels)
ends with only two persisted pieces: the inner `"X"` is named while the outer
`"X"` is not yet inserted, so both get the name `"X"` and the outer piece's
insertion overwrites the inner one. -/
theorem C7_counterexample :
    (loadModel sceneC7 emptyMeta).pieces.length = 2 ∧
      totNodes sceneC7.root = 3 ∧ totSent sceneC7.root = 0 := by
  decide

/-- C7 amended — for every scene whose root node is not itself a sentinel,
the piece counter after loading equals the number of encountered scene nodes
minus the number of encountered sentinel nodes (children of sentinel nodes
are never encountered), and the piece map's `"root"` entry is a piece named
`"root"`; the number of map entries can be smaller than the counter when a
descendant's chosen name collides with an ancestor's (see the
counterexample). -/
theorem C7_count_and_root_name (scene : AScene) (meta : MetaTable)
    (h : isSentinelName scene.root.name = false) :
    (loadModel scene meta).numPieces + encSent scene.root = encNodes scene.root ∧
      ∃ p, lookupP (loadModel scene meta).pieces "root" = some p ∧
        p.name = "root" := by
  constructor
  · have hproj : (loadModel scene meta).numPieces =
        (loadPhase scene meta).numPieces := rfl
    rw [hproj]
    have hcount := loadPiece_count scene.meshes
      (calculatePerMeshMinMax scene.meshes) meta none scene.root
      { tex1 := (findTexturesCore scene.materials meta).1,
        tex2 := (findTexturesCore scene.materials meta).2 }
    have hzero : (Model.mk [] 0 0 0 0 zeroV DEF_MIN_SIZE DEF_MAX_SIZE none
        (findTexturesCore scene.materials meta).1
        (findTexturesCore scene.materials meta).2).numPieces = 0 := rfl
    simp only [loadPhase]
    omega
  · have hname1 : ∀ k', (lookupP (loadModel scene meta).pieces k').map
        (fun p => p.name) =
        (lookupP (loadPhase scene meta).pieces k').map (fun p => p.name) := by
      intro k'
      have e1 : (loadModel scene meta).pieces =
          (calcDimsModel (buildPieceHierarchyM (loadPhase scene meta))).1 := rfl
      rw [e1]
      have e2 : ∀ (M : Model),
          (lookupP (calcDimsModel M).1 k').map (fun p => p.name) =
            (lookupP M.pieces k').map (fun p => p.name) := by
        intro M
        unfold calcDimsModel
        rcases M.rootPieceName with _ | r
        · rfl
        · exact calcDims_name k' _ _ _
      rw [e2]
      have e3 : (buildPieceHierarchyM (loadPhase scene meta)).pieces =
          (buildH (loadPhase scene meta).pieces).1 := rfl
      rw [e3, buildH_name]
    have hlp : ∃ p, lookupP (loadPhase scene meta).pieces "root" = some p ∧
        p.name = "root" := by
      rcases hroot : scene.root with ⟨n, sc, rot, tr, ms, cs⟩
      rw [hroot] at h
      have hn : ¬(n = "SpringHeight" ∨ n = "SpringRadius") := by
        intro hor
        rcases hor with h1 | h1 <;> simp [isSentinelName, h1, ANode.name] at h
      have h1 : ¬n = "SpringHeight" := fun hh => hn (Or.inl hh)
      have h2 : ¬n = "SpringRadius" := fun hh => hn (Or.inr hh)
      simp only [loadPhase, hroot, loadPiece, if_neg h1, if_neg h2]
      refine ⟨_, lookupP_insertP_self _ _ _, rfl⟩
    obtain ⟨p, hp, hpn⟩ := hlp
    have htr := hname1 "root"
    rw [hp] at htr
    rcases hL : lookupP (loadModel scene meta).pieces "root" with _ | q
    · rw [hL] at htr
      simp at htr
    · rw [hL] at htr
      simp only [Option.map_some'] at htr
      refine ⟨q, rfl, ?_⟩
      rw [Option.some.inj htr, hpn]

/-- Witness for C7 on the one-node scene `sceneC7w`. -/
theorem C7_witness :
    isSentinelName sceneC7w.root.name = false ∧
      ((loadModel sceneC7w emptyMeta).numPieces + encSent sceneC7w.root =
        encNodes sceneC7w.root) ∧
      (∃ p, lookupP (loadModel sceneC7w emptyMeta).pieces "root" = some p ∧
        p.name = "root") :=
  ⟨by decide, (C7_count_and_root_name sceneC7w emptyMeta (by decide)).1,
    (C7_count_and_root_name sceneC7w emptyMeta (by decide)).2⟩

/-- C1 — the `"SpringHeight"` sentinel (local translation Z = 5, no overlay
`height` key) does set the model height to 5 during `LoadPiece`, contributes
no piece and leaves the counter unincremented; but `CalculateModelProperties`
then recomputes `height` with `metaTable.GetFloat("height", model->maxs.z)`
(line 645), discarding the sentinel value: the fully loaded model's height is
the computed extent `maxs.z = 3`, not 5.  This evaluates the embedding at the
code-bug report's failing input. -/
theorem C1_sentinel_height_overwritten :
    (loadPhase sceneC1 emptyMeta).height = 5 ∧
      lookupP (loadPhase sceneC1 emptyMeta).pieces "SpringHeight" = none ∧
      (loadPhase sceneC1 emptyMeta).numPieces = 1 ∧
      (loadModel sceneC1 emptyMeta).height = 3 ∧ (3 : ℚ) ≠ 5 := by
  refine ⟨by decide, by decide, by decide, by decide, by norm_num⟩

/-! ## Radius computation (C2) -/

theorem lengthSq_le_compMax_abs (u v : Float3) :
    lengthSq u ≤ lengthSq (compMax (absV u) (absV v)) := by
  have hx : u.x * u.x ≤ max |u.x| |v.x| * max |u.x| |v.x| := by
    rw [← abs_mul_abs_self u.x]
    exact mul_self_le_mul_self (abs_nonneg _) (le_max_left _ _)
  have hy : u.y * u.y ≤ max |u.y| |v.y| * max |u.y| |v.y| := by
    rw [← abs_mul_abs_self u.y]
    exact mul_self_le_mul_self (abs_nonneg _) (le_max_left _ _)
  have hz : u.z * u.z ≤ max |u.z| |v.z| * max |u.z| |v.z| := by
    rw [← abs_mul_abs_self u.z]
    exact mul_self_le_mul_self (abs_nonneg _) (le_max_left _ _)
  simp only [lengthSq, compMax, absV]
  exact add_le_add (add_le_add hx hy) hz

theorem lengthSq_le_compMax_abs_right (u v : Float3) :
    lengthSq v ≤ lengthSq (compMax (absV u) (absV v)) := by
  have hx : v.x * v.x ≤ max |u.x| |v.x| * max |u.x| |v.x| := by
    rw [← abs_mul_abs_self v.x]
    exact mul_self_le_mul_self (abs_nonneg _) (le_max_right _ _)
  have hy : v.y * v.y ≤ max |u.y| |v.y| * max |u.y| |v.y| := by
    rw [← abs_mul_abs_self v.y]
    exact mul_self_le_mul_self (abs_nonneg _) (le_max_right _ _)
  have hz : v.z * v.z ≤ max |u.z| |v.z| * max |u.z| |v.z| := by
    rw [← abs_mul_abs_self v.z]
    exact mul_self_le_mul_self (abs_nonneg _) (le_max_right _ _)
  simp only [lengthSq, compMax, absV]
  exact add_le_add (add_le_add hx hy) hz

theorem len_mono_of_lengthSq_le {u w : Float3} (h : lengthSq u ≤ lengthSq w) :
    len u ≤ len w := by
  unfold len
  exact Real.sqrt_le_sqrt (by exact_mod_cast h)

/-- C2 counterexample — on the scene `sceneC2` (no overlay `radius` key, a
`"SpringRadius"` sentinel that sets the model radius to 2 during loading,
computed extents maxs = (3,0,0) and mins = (0,-4,0)), the final radius is 5:
not the sentinel value 2 the claim's second clause predicts, and not 4, the
longer of the two magnitudes (lengths 3 and 4) its third clause predicts —
the code takes the length of the componentwise maximum of the absolute
extents. -/
theorem C2_counterexample :
    (loadPhase sceneC2 emptyMeta).radius = ((2 : ℚ) : ℝ) ∧
      (loadModel sceneC2 emptyMeta).radius = 5 ∧
      len ⟨3, 0, 0⟩ = 3 ∧ len ⟨0, -4, 0⟩ = 4 ∧
      (5 : ℝ) ≠ ((2 : ℚ) : ℝ) ∧ (5 : ℝ) ≠ 4 := by
  refine ⟨by with_unfolding_all rfl, ?_, ?_, ?_, by norm_num, by norm_num⟩
  · have e : (loadModel sceneC2 emptyMeta).radius =
        defaultRadius
          (calcDimsModel (buildPieceHierarchyM (loadPhase sceneC2 emptyMeta))).2.1
          (calcDimsModel (buildPieceHierarchyM (loadPhase sceneC2 emptyMeta))).2.2 :=
      rfl
    have h1 : (calcDimsModel (buildPieceHierarchyM (loadPhase sceneC2 emptyMeta))).2.1 =
        ⟨0, -4, 0⟩ := by decide
    have h2 : (calcDimsModel (buildPieceHierarchyM (loadPhase sceneC2 emptyMeta))).2.2 =
        ⟨3, 0, 0⟩ := by decide
    rw [e, h1, h2]
    have hq : lengthSq (compMax (absV ⟨3, 0, 0⟩) (absV ⟨0, -4, 0⟩)) = 25 := by decide
    unfold defaultRadius len
    rw [hq]
    have h25 : ((25 : ℚ) : ℝ) = 25 := by norm_num
    rw [h25, show (25 : ℝ) = 5 ^ 2 by norm_num,
      Real.sqrt_sq (by norm_num : (0 : ℝ) ≤ 5)]
  · have hq : lengthSq ⟨3, 0, 0⟩ = 9 := by decide
    unfold len
    rw [hq, show ((9 : ℚ) : ℝ) = 9 by norm_num, show (9 : ℝ) = 3 ^ 2 by norm_num,
      Real.sqrt_sq (by norm_num : (0 : ℝ) ≤ 3)]
  · have hq : lengthSq ⟨0, -4, 0⟩ = 16 := by decide
    unfold len
    rw [hq, show ((16 : ℚ) : ℝ) = 16 by norm_num, show (16 : ℝ) = 4 ^ 2 by norm_num,
      Real.sqrt_sq (by norm_num : (0 : ℝ) ≤ 4)]

/-- C2 amended — after `CalculateModelProperties`, the radius equals the
overlay `radius` value when that key is present, and otherwise the length of
the componentwise maximum of the absolute values of the computed model-wide
extents — a quantity at least as large as both extents' magnitudes, but not
equal to the longer magnitude in general; any radius a `"SpringRadius"`
sentinel stored in the model is ignored (the default is recomputed from the
extents, so the output does not depend on the model's incoming radius
field); draw radius always equals the final radius. -/
theorem C2_radius_resolution (meta : MetaTable) (m : Model) (r0 : ℝ) :
    (calculateModelProperties meta { m with radius := r0 }).radius =
      (calculateModelProperties meta m).radius ∧
      (calculateModelProperties meta m).drawRadius =
        (calculateModelProperties meta m).radius ∧
      (∀ q, meta.radius = some q →
        (calculateModelProperties meta m).radius = ((q : ℚ) : ℝ)) ∧
      (meta.radius = none →
        (calculateModelProperties meta m).radius =
          defaultRadius (calcDimsModel m).2.1 (calcDimsModel m).2.2 ∧
        len (calcDimsModel m).2.2 ≤ (calculateModelProperties meta m).radius ∧
        len (calcDimsModel m).2.1 ≤ (calculateModelProperties meta m).radius) := by
  refine ⟨rfl, rfl, ?_, ?_⟩
  · intro q hq
    simp [calculateModelProperties, hq]
  · intro hq
    have hrad : (calculateModelProperties meta m).radius =
        defaultRadius (calcDimsModel m).2.1 (calcDimsModel m).2.2 := by
      simp [calculateModelProperties, hq]
    refine ⟨hrad, ?_, ?_⟩
    · rw [hrad]
      exact len_mono_of_lengthSq_le
        (lengthSq_le_compMax_abs (calcDimsModel m).2.2 (calcDimsModel m).2.1)
    · rw [hrad]
      exact len_mono_of_lengthSq_le
        (lengthSq_le_compMax_abs_right (calcDimsModel m).2.2 (calcDimsModel m).2.1)

/-- Witness for C2 on the empty metadata overlay and default model record. -/
theorem C2_witness :
    emptyMeta.radius = none ∧
      (calculateModelProperties emptyMeta {}).radius =
        defaultRadius (calcDimsModel {}).2.1 (calcDimsModel {}).2.2 :=
  ⟨rfl, ((C2_radius_resolution emptyMeta {} 37).2.2.2 rfl).1⟩

end

/-! ## Geometry extraction (C10) -/

theorem vm_fold_spec (l : List Float3) :
    ∀ (vs0 : List Float3) (m0 : List ℕ),
      (l.foldl (fun (acc : List Float3 × List ℕ) v =>
        (acc.1 ++ [v], acc.2 ++ [acc.1.length])) (vs0, m0)).1 = vs0 ++ l ∧
      (l.foldl (fun (acc : List Float3 × List ℕ) v =>
        (acc.1 ++ [v], acc.2 ++ [acc.1.length])) (vs0, m0)).2.length =
        m0.length + l.length ∧
      (∀ x ∈ (l.foldl (fun (acc : List Float3 × List ℕ) v =>
        (acc.1 ++ [v], acc.2 ++ [acc.1.length])) (vs0, m0)).2,
        x ∈ m0 ∨ x < vs0.length + l.length) := by
  induction l with
  | nil =>
    intro vs0 m0
    exact ⟨by simp, by simp, fun x hx => Or.inl hx⟩
  | cons v l ih =>
    intro vs0 m0
    rw [List.foldl_cons]
    obtain ⟨h1, h2, h3⟩ := ih (vs0 ++ [v]) (m0 ++ [vs0.length])
    refine ⟨?_, ?_, ?_⟩
    · rw [h1]
      simp
    · rw [h2]
      simp only [List.length_append, List.length_cons, List.length_nil]
      omega
    · intro x hx
      rcases h3 x hx with hm | hlt
      · rcases List.mem_append.mp hm with hm0 | hv
        · exact Or.inl hm0
        · right
          have : x = vs0.length := by simpa using hv
          simp only [List.length_cons]
          omega
      · right
        simp only [List.length_append, List.length_cons, List.length_nil] at hlt ⊢
        omega

theorem getD_mem_of_lt {l : List ℕ} {i : ℕ} (h : i < l.length) :
    l.getD i 0 ∈ l := by
  rw [List.getD_eq_getElem?_getD]
  rw [List.getElem?_eq_getElem h]
  simp

theorem face_fold_spec (vm : List ℕ) (N : ℕ) (hvm : ∀ x ∈ vm, x < N) :
    ∀ (faces : List (List ℕ)) (inds0 : List ℕ),
      (∀ f ∈ faces, ∀ i ∈ f, i < vm.length) →
      (∀ x ∈ inds0, x < N) → 3 ∣ inds0.length →
      (∀ x ∈ (faces.foldl (fun acc face =>
          if face.length = 3 then acc ++ face.map (fun i => vm.getD i 0) else acc)
          inds0), x < N) ∧
      3 ∣ (faces.foldl (fun acc face =>
          if face.length = 3 then acc ++ face.map (fun i => vm.getD i 0) else acc)
          inds0).length := by
  intro faces
  induction faces with
  | nil =>
    intro inds0 _ hb hd
    exact ⟨hb, hd⟩
  | cons f fs ih =>
    intro inds0 hface hb hd
    rw [List.foldl_cons]
    by_cases h3 : f.length = 3
    · rw [if_pos h3]
      apply ih
      · intro g hg
        exact hface g (List.mem_cons_of_mem f hg)
      · intro x hx
        rcases List.mem_append.mp hx with hx0 | hxm
        · exact hb x hx0
        · obtain ⟨i, hi, rfl⟩ := List.mem_map.mp hxm
          exact hvm _ (getD_mem_of_lt (hface f (List.mem_cons_self f fs) i hi))
      · rw [List.length_append, List.length_map, h3]
        exact Nat.dvd_add hd (by norm_num)
    · rw [if_neg h3]
      apply ih
      · intro g hg
        exact hface g (List.mem_cons_of_mem f hg)
      · exact hb
      · exact hd

theorem extractMesh_spec (mesh : AMesh) (verts : List Float3) (inds : List ℕ)
    (hface : ∀ f ∈ mesh.faces, ∀ i ∈ f, i < mesh.vertices.length)
    (hb : ∀ x ∈ inds, x < verts.length) (hd : 3 ∣ inds.length) :
    (extractMesh mesh verts inds).1 = verts ++ mesh.vertices ∧
      (∀ x ∈ (extractMesh mesh verts inds).2,
        x < (verts ++ mesh.vertices).length) ∧
      3 ∣ (extractMesh mesh verts inds).2.length := by
  obtain ⟨h1, h2, h3⟩ := vm_fold_spec mesh.vertices verts []
  unfold extractMesh
  refine ⟨h1, ?_⟩
  have hvmN : ∀ x ∈ (mesh.vertices.foldl (fun (acc : List Float3 × List ℕ) v =>
      (acc.1 ++ [v], acc.2 ++ [acc.1.length])) (verts, [])).2,
      x < (verts ++ mesh.vertices).length := by
    intro x hx
    rcases h3 x hx with hm | hlt
    · simp at hm
    · simpa using hlt
  have hvlen : (mesh.vertices.foldl (fun (acc : List Float3 × List ℕ) v =>
      (acc.1 ++ [v], acc.2 ++ [acc.1.length])) (verts, [])).2.length =
      mesh.vertices.length := by
    rw [h2]
    simp
  have hface' : ∀ f ∈ mesh.faces, ∀ i ∈ f,
      i < (mesh.vertices.foldl (fun (acc : List Float3 × List ℕ) v =>
        (acc.1 ++ [v], acc.2 ++ [acc.1.length])) (verts, [])).2.length := by
    intro f hf i hi
    rw [hvlen]
    exact hface f hf i hi
  have hb' : ∀ x ∈ inds, x < (verts ++ mesh.vertices).length := by
    intro x hx
    have := hb x hx
    simp only [List.length_append]
    omega
  exact face_fold_spec _ _ hvmN mesh.faces inds hface' hb' hd

/-- C10 — for a piece assembled by `LoadPiece`'s geometry-extraction loop
from meshes whose face indices are all in range, every element of the piece's
`vertexDrawIndices` is a valid index into the piece's vertex list (strictly
below its length), and the index list's length is a multiple of 3 (each
accepted face contributes exactly 3 remapped indices; other faces are
skipped). -/
theorem C10_draw_indices_valid (meshes : List AMesh) (refs : List ℕ)
    (h : ∀ mi ∈ refs, ∀ mesh, meshes.get? mi = some mesh →
      ∀ f ∈ mesh.faces, ∀ i ∈ f, i < mesh.vertices.length) :
    (∀ x ∈ (extractGeometry meshes refs).2,
      x < (extractGeometry meshes refs).1.length) ∧
      3 ∣ (extractGeometry meshes refs).2.length := by
  unfold extractGeometry
  suffices H : ∀ (refs : List ℕ) (vs : List Float3) (inds : List ℕ),
      (∀ mi ∈ refs, ∀ mesh, meshes.get? mi = some mesh →
        ∀ f ∈ mesh.faces, ∀ i ∈ f, i < mesh.vertices.length) →
      (∀ x ∈ inds, x < vs.length) → 3 ∣ inds.length →
      (∀ x ∈ (refs.foldl (fun (acc : List Float3 × List ℕ) mi =>
          match meshes.get? mi with
          | some mesh => extractMesh mesh acc.1 acc.2
          | none => acc) (vs, inds)).2,
        x < (refs.foldl (fun (acc : List Float3 × List ℕ) mi =>
          match meshes.get? mi with
          | some mesh => extractMesh mesh acc.1 acc.2
          | none => acc) (vs, inds)).1.length) ∧
      3 ∣ (refs.foldl (fun (acc : List Float3 × List ℕ) mi =>
          match meshes.get? mi with
          | some mesh => extractMesh mesh acc.1 acc.2
          | none => acc) (vs, inds)).2.length by
    exact H refs [] [] h (by intro x hx; simp at hx) (by simp)
  intro refs'
  induction refs' with
  | nil =>
    intro vs inds _ hb hd
    exact ⟨hb, hd⟩
  | cons mi refs' ih =>
    intro vs inds hh hb hd
    rw [List.foldl_cons]
    rcases hm : meshes.get? mi with _ | mesh
    · exact ih vs inds (fun mj hj => hh mj (List.mem_cons_of_mem mi hj)) hb hd
    · have hface := hh mi (List.mem_cons_self mi refs') mesh hm
      obtain ⟨h1, h2, h3⟩ := extractMesh_spec mesh vs inds hface hb hd
      have := ih (extractMesh mesh vs inds).1 (extractMesh mesh vs inds).2
        (fun mj hj => hh mj (List.mem_cons_of_mem mi hj))
        (by rw [h1]; exact h2) h3
      simpa [hm] using this

/-- Witness for C10 on a one-mesh scene: the mesh has three vertices, one
triangle face and one 2-index line face; the extracted index list is a valid
triangle. -/
theorem C10_witness :
    (∀ mi ∈ [0], ∀ mesh, [AMesh.mk [⟨0,0,0⟩, ⟨1,0,0⟩, ⟨0,1,0⟩] [[0,1,2],[0,1]]].get? mi =
        some mesh → ∀ f ∈ mesh.faces, ∀ i ∈ f, i < mesh.vertices.length) ∧
      ((∀ x ∈ (extractGeometry [AMesh.mk [⟨0,0,0⟩, ⟨1,0,0⟩, ⟨0,1,0⟩] [[0,1,2],[0,1]]] [0]).2,
        x < (extractGeometry [AMesh.mk [⟨0,0,0⟩, ⟨1,0,0⟩, ⟨0,1,0⟩] [[0,1,2],[0,1]]] [0]).1.length) ∧
        3 ∣ (extractGeometry [AMesh.mk [⟨0,0,0⟩, ⟨1,0,0⟩, ⟨0,1,0⟩] [[0,1,2],[0,1]]] [0]).2.length) :=
  ⟨by decide, C10_draw_indices_valid
    [AMesh.mk [⟨0,0,0⟩, ⟨1,0,0⟩, ⟨0,1,0⟩] [[0,1,2],[0,1]]] [0] (by decide)⟩
